import Mathlib

/-!
Verification of the FedLab client-side communication layer: the
`TopkCompressor` sparsifying codec (`fedlab/core/communicator/compressor.py`)
and the passive/active client protocol engines
(`fedlab/core/client/manager.py`), embedded shallowly.

Tensors are modelled as a shape together with flattened rational data;
the PyTorch operations used by the source (`view(-1)`, `abs`, `topk`,
fancy indexing, `zeros`, `index_put_` with `accumulate=True`) are given
executable list-level counterparts.
-/

namespace FedLab

/-- A numeric array: its shape and its flattened contents. -/
structure Tensor where
  shape : List ℕ
  data : List ℚ
deriving DecidableEq, Repr

/-- `torch.numel`: the number of elements described by the shape. -/
def Tensor.numel (t : Tensor) : ℕ := t.shape.prod

/-- A tensor is well-formed when its data has exactly `numel` entries. -/
def Tensor.WF (t : Tensor) : Prop := t.data.length = t.numel

/-- A context entry stored in `attributes`: `(numel, shape, top_k_samples)`,
exactly the triple stored by `initialize` in the source. `top_k_samples`
is an integer because Python's `int(math.ceil n)` is a (possibly negative)
integer. -/
abbrev AttrEntry := ℕ × List ℕ × ℤ

/-- State of a `TopkCompressor` object: the constructor arguments and the
`attributes` dictionary (modelled as an insertion-ordered association
list with Python-dict overwrite semantics). -/
structure TopkCompressor where
  fp16_values : Bool
  int32_indices : Bool
  compress_ratio : ℚ
  attributes : List (String × AttrEntry)
deriving DecidableEq, Repr

/-- `TopkCompressor.__init__`: normalizes the ratio (`r` if `r <= 1.0`
else `1/r`) and starts with an empty attribute dictionary. -/
def TopkCompressor.init (r : ℚ) (fp16 int32 : Bool) : TopkCompressor :=
  { fp16_values := fp16
    int32_indices := int32
    compress_ratio := if r ≤ 1 then r else 1 / r
    attributes := [] }

/-- Python-dict assignment `d[k] = v`: overwrite in place if the key is
present, otherwise append at the end. -/
def dictInsert (d : List (String × AttrEntry)) (k : String) (v : AttrEntry) :
    List (String × AttrEntry) :=
  if (d.lookup k).isSome then
    d.map (fun p => if p.1 = k then (k, v) else p)
  else
    d ++ [(k, v)]

/-- `TopkCompressor.initialize`: for every `(name, param)` pair record
`(numel, shape, int(math.ceil(numel * compress_ratio)))` in `attributes`.
(The source's `torch.is_tensor` guard cannot fail here because parameters
are `Tensor` by type.) -/
def TopkCompressor.initialize (c : TopkCompressor)
    (named_parameters : List (String × Tensor)) : TopkCompressor :=
  named_parameters.foldl
    (fun c' np =>
      { c' with
        attributes :=
          dictInsert c'.attributes np.1
            (np.2.numel, np.2.shape, ⌈(np.2.numel : ℚ) * c'.compress_ratio⌉) })
    c

/-- The index permutation produced by sorting positions of `xs` by
decreasing absolute value (a concrete realisation of `torch.topk`'s
selection; ties are broken deterministically here, which the claims allow
as "arbitrary"). -/
def sortIdx (xs : List ℚ) : List ℕ :=
  List.insertionSort (fun a b => |xs.getD b 0| ≤ |xs.getD a 0|) (List.range xs.length)

/-- `torch.topk(|xs|, k, largest=True)` index set: the first `k` positions
in decreasing-magnitude order. -/
def topkIndices (xs : List ℚ) (k : ℕ) : List ℕ := (sortIdx xs).take k

/-- `TopkCompressor.compress`: requires `compress_ratio < 1.0` and `name`
registered, else raises `ValueError("invalid value")`; flattens the
tensor, takes the `top_k_samples` largest-magnitude positions and gathers
their values. `torch.topk` itself raises when `k` is negative or exceeds
the number of elements; that error path is kept. -/
def TopkCompressor.compress (c : TopkCompressor) (tensor : Tensor) (name : String) :
    Except String ((List ℚ × List ℕ) × (String × List ℕ)) :=
  if c.compress_ratio < 1 then
    match c.attributes.lookup name with
    | some (_, shape, top_k_samples) =>
      if 0 ≤ top_k_samples ∧ top_k_samples.toNat ≤ tensor.data.length then
        let indices := topkIndices tensor.data top_k_samples.toNat
        let values := indices.map (fun i => tensor.data.getD i 0)
        .ok ((values, indices), (name, shape))
      else .error "selected index k out of range"
    | none => .error "invalid value"
  else .error "invalid value"

/-- `index_put_([indices], values, accumulate=True)` on a flattened
buffer: walk the `(index, value)` pairs, adding each value at its index. -/
def scatterAddList : List ℚ → List ℕ → List ℚ → List ℚ
  | base, [], _ => base
  | base, _ :: _, [] => base
  | base, i :: is, v :: vs => scatterAddList (base.set i (base.getD i 0 + v)) is vs

/-- `TopkCompressor.decompress`: requires `compress_ratio < 1.0` and `name`
registered, else raises `ValueError("invalid value")`; builds a zero
tensor of `shape`, scatter-adds `values` at `indices`, reshapes. The
out-of-range-index / length-mismatch errors of `index_put_` are kept. -/
def TopkCompressor.decompress (c : TopkCompressor) (payload : List ℚ × List ℕ)
    (ctx : String × List ℕ) : Except String Tensor :=
  if c.compress_ratio < 1 then
    match c.attributes.lookup ctx.1 with
    | some _ =>
      if payload.2.length = payload.1.length ∧ ∀ i ∈ payload.2, i < ctx.2.prod then
        .ok ⟨ctx.2, scatterAddList (List.replicate ctx.2.prod 0) payload.2 payload.1⟩
      else .error "index out of range"
    | none => .error "invalid value"
  else .error "invalid value"

/-- State-passing form of `compress`: the method reads but never assigns
any field of `self`, so the post-state is the input state on every path,
including the error paths. -/
def TopkCompressor.compressS (c : TopkCompressor) (tensor : Tensor) (name : String) :
    TopkCompressor × Except String ((List ℚ × List ℕ) × (String × List ℕ)) :=
  (c, c.compress tensor name)

/-- State-passing form of `decompress`; as in the source, no field of
`self` is ever assigned. -/
def TopkCompressor.decompressS (c : TopkCompressor) (payload : List ℚ × List ℕ)
    (ctx : String × List ℕ) : TopkCompressor × Except String Tensor :=
  (c, c.decompress payload ctx)

/-!
Client protocol engines (`fedlab/core/client/manager.py`).

`MessageCode` is the closed enumeration of wire message kinds.  A
`Package` is an envelope: a message code plus an ordered list of numeric
payloads (each payload a flattened tensor).  All traffic of a client goes
to/from rank 0, so ranks are left implicit.

The external training collaborator is abstracted as a `Trainer`: a state
type with `train` (local update) and `model_parameters` (current
parameters), plus `client_num`.

Each main loop is interpreted against a finite stream of incoming
packages: the resulting trace records every send and every receive in
order, together with how the loop ended: `exited` (broke out on `Exit`),
`protocolError c` (the `raise ValueError` branch on message code `c`),
`crashed` (Python `IndexError`: a `ParameterUpdate` payload too short for
the subscripts the loop takes), `typeError` (Python `TypeError`:
`None + 1` in `synchronize`), or `blocked` (stream exhausted, the loop is
still waiting on `recv`).
-/

/-- The wire message kinds used by the managers. -/
inductive MessageCode where
  | SetUp
  | ParameterUpdate
  | ParameterRequest
  | Exit
deriving DecidableEq, Repr

/-- An envelope: message code plus ordered numeric payloads. -/
structure Package where
  code : MessageCode
  payloads : List (List ℚ)
deriving DecidableEq, Repr

/-- One observable communication action of a client. -/
inductive Event where
  | send (p : Package)
  | recv (p : Package)
deriving DecidableEq, Repr

/-- How a main loop run over a finite receive stream ended. -/
inductive LoopOutcome where
  | exited
  | blocked
  | protocolError (c : MessageCode)
  | crashed
  | typeError
deriving DecidableEq, Repr

/-- The external training collaborator (`self._trainer`). -/
structure Trainer (σ : Type) where
  client_num : ℤ
  train : σ → List ℚ → σ
  model_parameters : σ → List ℚ

/-- `ClientManager.setup`: the handshake envelope
`Package(message_code=SetUp, content=torch.Tensor([client_num]).int())`,
whose sole payload is the single-element array `[client_num]`. -/
def setupPackage {σ : Type} (tr : Trainer σ) : Package :=
  ⟨MessageCode.SetUp, [[(tr.client_num : ℚ)]]⟩

/-- `ClientPassiveManager.synchronize`: a `ParameterUpdate` envelope
carrying the trainer's current model parameters. -/
def passiveSyncPackage {σ : Type} (tr : Trainer σ) (s : σ) : Package :=
  ⟨MessageCode.ParameterUpdate, [tr.model_parameters s]⟩

/-- `ClientPassiveManager.main_loop` interpreted over a finite stream of
incoming packages. Returns the event trace and the outcome. -/
def passiveLoop {σ : Type} (tr : Trainer σ) : σ → List Package → List Event × LoopOutcome
  | _, [] => ([], .blocked)
  | s, pkg :: rest =>
    match pkg.code with
    | .Exit => ([.recv pkg], .exited)
    | .ParameterUpdate =>
      match pkg.payloads[0]? with
      | some p0 =>
        let s' := tr.train s p0
        let res := passiveLoop tr s' rest
        (.recv pkg :: .send (passiveSyncPackage tr s') :: res.1, res.2)
      | none => ([.recv pkg], .crashed)
    | c => ([.recv pkg], .protocolError c)

/-- `ClientPassiveManager.run`: `setup()` (which sends the handshake
envelope to rank 0) followed by `main_loop()`. -/
def passiveRun {σ : Type} (tr : Trainer σ) (s : σ) (msgs : List Package) :
    List Event × LoopOutcome :=
  let res := passiveLoop tr s msgs
  (.send (setupPackage tr) :: res.1, res.2)

/-- The `ParameterRequest` envelope the active manager sends at the top
of every iteration (no payload). -/
def reqPackage : Package := ⟨MessageCode.ParameterRequest, []⟩

/-- `ClientActiveManager.synchronize`: reads `self.model_time` and sends
`[model_parameters, model_time + 1]`. When `model_time` is still `None`,
`model_time + 1` is a Python `TypeError`, modelled as `none`. The `+ 1`
on a tensor is elementwise. -/
def synchronizeSent {σ : Type} (tr : Trainer σ) (s : σ) (mt : Option (List ℚ)) :
    Option Package :=
  match mt with
  | some m => some ⟨MessageCode.ParameterUpdate, [tr.model_parameters s, m.map (· + 1)]⟩
  | none => none

/-- `ClientActiveManager.main_loop` interpreted over a finite stream of
incoming packages, threading the trainer state and `self.model_time`.
Returns the event trace, the outcome, and the final `model_time`. -/
def activeLoop {σ : Type} (tr : Trainer σ) :
    σ → Option (List ℚ) → List Package → List Event × LoopOutcome × Option (List ℚ)
  | _, mt, [] => ([.send reqPackage], .blocked, mt)
  | s, mt, pkg :: rest =>
    match pkg.code with
    | .Exit => ([.send reqPackage, .recv pkg], .exited, mt)
    | .ParameterUpdate =>
      match pkg.payloads[0]?, pkg.payloads[1]? with
      | some p0, some p1 =>
        let s' := tr.train s p0
        match synchronizeSent tr s' (some p1) with
        | some sp =>
          let res := activeLoop tr s' (some p1) rest
          (.send reqPackage :: .recv pkg :: .send sp :: res.1, res.2)
        | none => ([.send reqPackage, .recv pkg], .typeError, some p1)
      | _, _ => ([.send reqPackage, .recv pkg], .crashed, mt)
    | c => ([.send reqPackage, .recv pkg], .protocolError c, mt)

/-- `ClientActiveManager` construction sets `self.model_time = None`;
a run of its main loop starts from that state. -/
def activeRunFromInit {σ : Type} (tr : Trainer σ) (s : σ) (msgs : List Package) :
    List Event × LoopOutcome × Option (List ℚ) :=
  activeLoop tr s none msgs

/-- A trivial trainer over a unit state, used to instantiate theorems at
concrete inputs. -/
def unitTrainer : Trainer Unit :=
  { client_num := 4
    train := fun _ _ => ()
    model_parameters := fun _ => [0] }

/-! Helper lemmas about the passive and active loop traces. -/

theorem passiveLoop_send_code {σ : Type} (tr : Trainer σ) (s : σ) (msgs : List Package) :
    ∀ e ∈ (passiveLoop tr s msgs).1, ∀ p, e = Event.send p →
      p.code = MessageCode.ParameterUpdate := by
  induction msgs generalizing s with
  | nil => simp [passiveLoop]
  | cons q rest ih =>
    cases hc : q.code
    case SetUp => simp [passiveLoop, hc]
    case ParameterRequest => simp [passiveLoop, hc]
    case Exit => simp [passiveLoop, hc]
    case ParameterUpdate =>
      cases hp : q.payloads[0]? with
      | none => simp [passiveLoop, hc, hp]
      | some p0 =>
        intro e he p hep
        simp only [passiveLoop, hc, hp, List.mem_cons] at he
        rcases he with h | h | h
        · subst h; cases hep
        · subst h; cases hep; rfl
        · exact ih _ e h p hep

theorem passiveLoop_protocolError {σ : Type} (tr : Trainer σ) (s : σ) (msgs : List Package)
    (i : ℕ) (pkg : Package) (h1 : pkg.code ≠ MessageCode.ParameterUpdate)
    (h2 : pkg.code ≠ MessageCode.Exit)
    (h : (passiveLoop tr s msgs).1[i]? = some (Event.recv pkg)) :
    (passiveLoop tr s msgs).1.length = i + 1 ∧
      (passiveLoop tr s msgs).2 = LoopOutcome.protocolError pkg.code := by
  induction msgs generalizing s i with
  | nil => simp [passiveLoop] at h
  | cons q rest ih =>
    cases hc : q.code
    case SetUp =>
      simp only [passiveLoop, hc] at h ⊢
      cases i with
      | zero =>
        simp only [List.getElem?_cons_zero, Option.some.injEq, Event.recv.injEq] at h
        subst h; simp [hc]
      | succ n => simp at h
    case ParameterRequest =>
      simp only [passiveLoop, hc] at h ⊢
      cases i with
      | zero =>
        simp only [List.getElem?_cons_zero, Option.some.injEq, Event.recv.injEq] at h
        subst h; simp [hc]
      | succ n => simp at h
    case Exit =>
      simp only [passiveLoop, hc] at h ⊢
      cases i with
      | zero =>
        simp only [List.getElem?_cons_zero, Option.some.injEq, Event.recv.injEq] at h
        subst h; exact absurd hc h2
      | succ n => simp at h
    case ParameterUpdate =>
      cases hp : q.payloads[0]? with
      | none =>
        simp only [passiveLoop, hc, hp] at h ⊢
        cases i with
        | zero =>
          simp only [List.getElem?_cons_zero, Option.some.injEq, Event.recv.injEq] at h
          subst h; exact absurd hc h1
        | succ n => simp at h
      | some p0 =>
        simp only [passiveLoop, hc, hp] at h ⊢
        cases i with
        | zero =>
          simp only [List.getElem?_cons_zero, Option.some.injEq, Event.recv.injEq] at h
          subst h; exact absurd hc h1
        | succ n =>
          cases n with
          | zero => simp at h
          | succ m =>
            simp only [List.getElem?_cons_succ] at h
            have := ih _ m h
            refine ⟨?_, this.2⟩
            simp only [List.length_cons, this.1]

theorem activeLoop_protocolError {σ : Type} (tr : Trainer σ) (s : σ) (mt : Option (List ℚ))
    (msgs : List Package) (i : ℕ) (pkg : Package)
    (h1 : pkg.code ≠ MessageCode.ParameterUpdate) (h2 : pkg.code ≠ MessageCode.Exit)
    (h : (activeLoop tr s mt msgs).1[i]? = some (Event.recv pkg)) :
    (activeLoop tr s mt msgs).1.length = i + 1 ∧
      (activeLoop tr s mt msgs).2.1 = LoopOutcome.protocolError pkg.code := by
  induction msgs generalizing s mt i with
  | nil =>
    simp only [activeLoop] at h
    cases i with
    | zero => simp at h
    | succ n => simp at h
  | cons q rest ih =>
    cases hc : q.code
    case SetUp =>
      simp only [activeLoop, hc] at h ⊢
      cases i with
      | zero => simp at h
      | succ n =>
        cases n with
        | zero =>
          simp only [List.getElem?_cons_succ, List.getElem?_cons_zero, Option.some.injEq,
            Event.recv.injEq] at h
          subst h; simp [hc]
        | succ m => simp at h
    case ParameterRequest =>
      simp only [activeLoop, hc] at h ⊢
      cases i with
      | zero => simp at h
      | succ n =>
        cases n with
        | zero =>
          simp only [List.getElem?_cons_succ, List.getElem?_cons_zero, Option.some.injEq,
            Event.recv.injEq] at h
          subst h; simp [hc]
        | succ m => simp at h
    case Exit =>
      simp only [activeLoop, hc] at h ⊢
      cases i with
      | zero => simp at h
      | succ n =>
        cases n with
        | zero =>
          simp only [List.getElem?_cons_succ, List.getElem?_cons_zero, Option.some.injEq,
            Event.recv.injEq] at h
          subst h; exact absurd hc h2
        | succ m => simp at h
    case ParameterUpdate =>
      cases hp0 : q.payloads[0]? with
      | none =>
        simp only [activeLoop, hp0, hc] at h ⊢
        cases i with
        | zero => simp at h
        | succ n =>
          cases n with
          | zero =>
            simp only [List.getElem?_cons_succ, List.getElem?_cons_zero, Option.some.injEq,
              Event.recv.injEq] at h
            subst h; exact absurd hc h1
          | succ m => simp at h
      | some p0 =>
        cases hp1 : q.payloads[1]? with
        | none =>
          simp only [activeLoop, hp0, hp1, hc] at h ⊢
          cases i with
          | zero => simp at h
          | succ n =>
            cases n with
            | zero =>
              simp only [List.getElem?_cons_succ, List.getElem?_cons_zero, Option.some.injEq,
                Event.recv.injEq] at h
              subst h; exact absurd hc h1
            | succ m => simp at h
        | some p1 =>
          simp only [activeLoop, hp0, hp1, hc, synchronizeSent] at h ⊢
          cases i with
          | zero => simp at h
          | succ n =>
            cases n with
            | zero =>
              simp only [List.getElem?_cons_succ, List.getElem?_cons_zero, Option.some.injEq,
                Event.recv.injEq] at h
              subst h; exact absurd hc h1
            | succ m =>
              cases m with
              | zero => simp at h
              | succ l =>
                simp only [List.getElem?_cons_succ] at h
                have := ih _ (some p1) l h
                refine ⟨?_, this.2⟩
                simp only [List.length_cons, this.1]

/-- Does the event send a `ParameterUpdate` envelope? -/
def isSendPU : Event → Bool
  | .send p => p.code == MessageCode.ParameterUpdate
  | _ => false

/-- Does the event receive a `ParameterUpdate` envelope? -/
def isRecvPU : Event → Bool
  | .recv p => p.code == MessageCode.ParameterUpdate
  | _ => false

theorem activeLoop_no_typeError {σ : Type} (tr : Trainer σ) (s : σ) (mt : Option (List ℚ))
    (msgs : List Package) : (activeLoop tr s mt msgs).2.1 ≠ LoopOutcome.typeError := by
  induction msgs generalizing s mt with
  | nil => simp [activeLoop]
  | cons q rest ih =>
    cases hc : q.code
    case SetUp => simp [activeLoop, hc]
    case ParameterRequest => simp [activeLoop, hc]
    case Exit => simp [activeLoop, hc]
    case ParameterUpdate =>
      cases hp0 : q.payloads[0]? with
      | none => simp [activeLoop, hc, hp0]
      | some p0 =>
        cases hp1 : q.payloads[1]? with
        | none => simp [activeLoop, hc, hp0, hp1]
        | some p1 =>
          simp only [activeLoop, hc, hp0, hp1, synchronizeSent]
          exact ih _ (some p1)

theorem activeLoop_mt_unchanged {σ : Type} (tr : Trainer σ) (s : σ) (mt : Option (List ℚ))
    (msgs : List Package)
    (hnp : ∀ e ∈ (activeLoop tr s mt msgs).1, isRecvPU e = false) :
    (activeLoop tr s mt msgs).2.2 = mt := by
  induction msgs generalizing s mt with
  | nil => simp [activeLoop]
  | cons q rest ih =>
    cases hc : q.code
    case SetUp => simp [activeLoop, hc]
    case ParameterRequest => simp [activeLoop, hc]
    case Exit => simp [activeLoop, hc]
    case ParameterUpdate =>
      cases hp0 : q.payloads[0]? with
      | none => simp [activeLoop, hc, hp0]
      | some p0 =>
        cases hp1 : q.payloads[1]? with
        | none => simp [activeLoop, hc, hp0, hp1]
        | some p1 =>
          exfalso
          have hmem : Event.recv q ∈ (activeLoop tr s mt (q :: rest)).1 := by
            simp [activeLoop, hc, hp0, hp1, synchronizeSent]
          have := hnp _ hmem
          simp [isRecvPU, hc] at this

/-- C10: the active client's `model_time` is `None` from construction and
`synchronize` — the only reader of `model_time + 1` — is reached only
after a `ParameterUpdate` receipt has stored `payload[1]`, so the
`None + 1` `TypeError` (outcome `typeError`) is unreachable in any run
started from the freshly constructed manager; moreover if no
`ParameterUpdate` is ever received the counter stays `None`. -/
theorem active_model_time_unset_safe {σ : Type} (tr : Trainer σ) (s : σ)
    (msgs : List Package) :
    (activeRunFromInit tr s msgs).2.1 ≠ LoopOutcome.typeError ∧
    ((∀ e ∈ (activeRunFromInit tr s msgs).1, isRecvPU e = false) →
      (activeRunFromInit tr s msgs).2.2 = none) :=
  ⟨activeLoop_no_typeError tr s none msgs,
   fun hnp => activeLoop_mt_unchanged tr s none msgs hnp⟩

/-- C10 witness: a concrete run that only receives `Exit` neither crashes
on `None + 1` nor ever leaves `model_time` assigned. -/
theorem active_model_time_unset_safe_witness :
    (activeRunFromInit unitTrainer () [⟨MessageCode.Exit, []⟩]).2.1 ≠ LoopOutcome.typeError ∧
    (activeRunFromInit unitTrainer () [⟨MessageCode.Exit, []⟩]).2.2 = none :=
  ⟨(active_model_time_unset_safe unitTrainer () [⟨MessageCode.Exit, []⟩]).1,
   (active_model_time_unset_safe unitTrainer () [⟨MessageCode.Exit, []⟩]).2 (by decide)⟩

/-- C4: an envelope whose kind is neither `ParameterUpdate` nor `Exit`
makes the passive loop (index `i` of its trace) and the active loop
(index `j` of its trace) raise the `ValueError` branch: the offending
receive is the final event of the trace — so no further sends happen and
the loop does not continue — and the outcome is `protocolError`. -/
theorem unknown_kind_rejection {σ : Type} (tr : Trainer σ) (s : σ) (mt : Option (List ℚ))
    (msgs : List Package) (i j : ℕ) (pkg qkg : Package)
    (hp1 : pkg.code ≠ MessageCode.ParameterUpdate) (hp2 : pkg.code ≠ MessageCode.Exit)
    (hq1 : qkg.code ≠ MessageCode.ParameterUpdate) (hq2 : qkg.code ≠ MessageCode.Exit) :
    ((passiveLoop tr s msgs).1[i]? = some (Event.recv pkg) →
      (passiveLoop tr s msgs).1.length = i + 1 ∧
      (passiveLoop tr s msgs).2 = LoopOutcome.protocolError pkg.code) ∧
    ((activeLoop tr s mt msgs).1[j]? = some (Event.recv qkg) →
      (activeLoop tr s mt msgs).1.length = j + 1 ∧
      (activeLoop tr s mt msgs).2.1 = LoopOutcome.protocolError qkg.code) :=
  ⟨fun h => passiveLoop_protocolError tr s msgs i pkg hp1 hp2 h,
   fun h => activeLoop_protocolError tr s mt msgs j qkg hq1 hq2 h⟩

/-- C4 witness: a synthetic `SetUp` envelope fed to both loops ends each
trace at the offending receive with a protocol error. -/
theorem unknown_kind_rejection_witness :
    (passiveLoop unitTrainer () [⟨MessageCode.SetUp, []⟩]).1.length = 1 ∧
    (passiveLoop unitTrainer () [⟨MessageCode.SetUp, []⟩]).2 =
      LoopOutcome.protocolError MessageCode.SetUp ∧
    (activeLoop unitTrainer () none [⟨MessageCode.SetUp, []⟩]).1.length = 2 ∧
    (activeLoop unitTrainer () none [⟨MessageCode.SetUp, []⟩]).2.1 =
      LoopOutcome.protocolError MessageCode.SetUp := by
  have h := unknown_kind_rejection unitTrainer () none [⟨MessageCode.SetUp, []⟩] 0 1
    ⟨MessageCode.SetUp, []⟩ ⟨MessageCode.SetUp, []⟩
    (by decide) (by decide) (by decide) (by decide)
  exact ⟨(h.1 (by decide)).1, (h.1 (by decide)).2, (h.2 (by decide)).1, (h.2 (by decide)).2⟩

/-- C9: a passive-client run begins with exactly one `SetUp` send — its
sole payload the single-element integer array holding the trainer's
client count — emitted before the main loop's trace; every send the main
loop itself produces is a `ParameterUpdate`, so the handshake precedes
any `ParameterUpdate`/`ParameterRequest` traffic and no further `SetUp`
is ever sent. -/
theorem handshake_before_traffic {σ : Type} (tr : Trainer σ) (s : σ) (msgs : List Package) :
    (passiveRun tr s msgs).1 = Event.send (setupPackage tr) :: (passiveLoop tr s msgs).1 ∧
    (setupPackage tr).code = MessageCode.SetUp ∧
    (setupPackage tr).payloads = [[(tr.client_num : ℚ)]] ∧
    ∀ e ∈ (passiveLoop tr s msgs).1, ∀ p, e = Event.send p →
      p.code = MessageCode.ParameterUpdate :=
  ⟨rfl, rfl, rfl, passiveLoop_send_code tr s msgs⟩

/-- C9 witness: the handshake-first trace shape at a concrete trainer and
stream. -/
theorem handshake_before_traffic_witness :
    (passiveRun unitTrainer () []).1 =
      Event.send (setupPackage unitTrainer) :: (passiveLoop unitTrainer () []).1 ∧
    (setupPackage unitTrainer).code = MessageCode.SetUp ∧
    (setupPackage unitTrainer).payloads = [[(unitTrainer.client_num : ℚ)]] ∧
    ∀ e ∈ (passiveLoop unitTrainer () []).1, ∀ p, e = Event.send p →
      p.code = MessageCode.ParameterUpdate :=
  handshake_before_traffic unitTrainer () []

/-- C3: over any passive-client run, `ParameterUpdate` sends pair 1:1 with
`ParameterUpdate` receives (which are exactly the non-`Exit`
`ParameterUpdate` receives), and the loop terminates normally (outcome
`exited`) iff an `Exit` envelope was received. Well-formedness: received
`ParameterUpdate` envelopes carry at least their parameter payload, as
the protocol prescribes. -/
theorem passive_cadence {σ : Type} (tr : Trainer σ) (s : σ) (msgs : List Package)
    (hwf : ∀ p ∈ msgs, p.code = MessageCode.ParameterUpdate → p.payloads ≠ []) :
    ((passiveLoop tr s msgs).1.filter isSendPU).length =
      ((passiveLoop tr s msgs).1.filter isRecvPU).length ∧
    ((passiveLoop tr s msgs).2 = LoopOutcome.exited ↔
      ∃ p, Event.recv p ∈ (passiveLoop tr s msgs).1 ∧ p.code = MessageCode.Exit) := by
  induction msgs generalizing s with
  | nil => simp [passiveLoop]
  | cons q rest ih =>
    cases hc : q.code
    case SetUp => simp [passiveLoop, hc, isSendPU, isRecvPU]
    case ParameterRequest => simp [passiveLoop, hc, isSendPU, isRecvPU]
    case Exit => simp [passiveLoop, hc, isSendPU, isRecvPU]
    case ParameterUpdate =>
      have hne : q.payloads ≠ [] := hwf q (by simp) hc
      cases hp : q.payloads[0]? with
      | none =>
        cases hq : q.payloads with
        | nil => exact absurd hq hne
        | cons a t => rw [hq] at hp; simp at hp
      | some p0 =>
        have ihr := ih (tr.train s p0) (fun p hp hcp => hwf p (by simp [hp]) hcp)
        constructor
        · simp only [passiveLoop, hc, hp]
          simp [isSendPU, isRecvPU, passiveSyncPackage, hc, List.filter_cons, ihr.1]
        · simp only [passiveLoop, hc, hp]
          rw [ihr.2]
          constructor
          · rintro ⟨p, hpmem, hpe⟩
            exact ⟨p, by simp [hpmem], hpe⟩
          · rintro ⟨p, hpmem, hpe⟩
            simp only [List.mem_cons] at hpmem
            rcases hpmem with h | h | h
            · injection h with h'
              subst h'
              rw [hc] at hpe
              cases hpe
            · cases h
            · exact ⟨p, h, hpe⟩


/-- C3 witness: one `ParameterUpdate` round followed by `Exit` shows the
1:1 send/receive pairing and normal termination on `Exit`. -/
theorem passive_cadence_witness :
    ((passiveLoop unitTrainer ()
        [⟨MessageCode.ParameterUpdate, [[1]]⟩, ⟨MessageCode.Exit, []⟩]).1.filter
          isSendPU).length =
      ((passiveLoop unitTrainer ()
        [⟨MessageCode.ParameterUpdate, [[1]]⟩, ⟨MessageCode.Exit, []⟩]).1.filter
          isRecvPU).length ∧
    ((passiveLoop unitTrainer ()
        [⟨MessageCode.ParameterUpdate, [[1]]⟩, ⟨MessageCode.Exit, []⟩]).2 =
        LoopOutcome.exited ↔
      ∃ p, Event.recv p ∈ (passiveLoop unitTrainer ()
        [⟨MessageCode.ParameterUpdate, [[1]]⟩, ⟨MessageCode.Exit, []⟩]).1 ∧
        p.code = MessageCode.Exit) :=
  passive_cadence unitTrainer ()
    [⟨MessageCode.ParameterUpdate, [[1]]⟩, ⟨MessageCode.Exit, []⟩] (by decide)

/-- C2: whenever the active loop receives a `ParameterUpdate` (whose
payload, per the protocol, has at least the two elements the loop
subscripts), it stores the second payload element and the very next trace
event is the send of a `ParameterUpdate` envelope to rank 0 carrying
exactly two payloads, the second being the stored counter plus one
(elementwise `+ 1` on the stored tensor). -/
theorem active_round_counter {σ : Type} (tr : Trainer σ) (s : σ) (mt : Option (List ℚ))
    (msgs : List Package)
    (hwf : ∀ p ∈ msgs, p.code = MessageCode.ParameterUpdate → 2 ≤ p.payloads.length)
    (i : ℕ) (pkg : Package)
    (hrecv : (activeLoop tr s mt msgs).1[i]? = some (Event.recv pkg))
    (hcode : pkg.code = MessageCode.ParameterUpdate) :
    ∃ cnt params,
      pkg.payloads[1]? = some cnt ∧
      (activeLoop tr s mt msgs).1[i + 1]? =
        some (Event.send ⟨MessageCode.ParameterUpdate, [params, cnt.map (· + 1)]⟩) := by
  induction msgs generalizing s mt i with
  | nil =>
    simp only [activeLoop] at hrecv
    cases i with
    | zero => simp at hrecv
    | succ n => simp at hrecv
  | cons q rest ih =>
    cases hc : q.code
    case SetUp =>
      simp only [activeLoop, hc] at hrecv
      cases i with
      | zero => simp at hrecv
      | succ n =>
        cases n with
        | zero =>
          simp only [List.getElem?_cons_succ, List.getElem?_cons_zero, Option.some.injEq,
            Event.recv.injEq] at hrecv
          subst hrecv
          rw [hc] at hcode
          cases hcode
        | succ m => simp at hrecv
    case ParameterRequest =>
      simp only [activeLoop, hc] at hrecv
      cases i with
      | zero => simp at hrecv
      | succ n =>
        cases n with
        | zero =>
          simp only [List.getElem?_cons_succ, List.getElem?_cons_zero, Option.some.injEq,
            Event.recv.injEq] at hrecv
          subst hrecv
          rw [hc] at hcode
          cases hcode
        | succ m => simp at hrecv
    case Exit =>
      simp only [activeLoop, hc] at hrecv
      cases i with
      | zero => simp at hrecv
      | succ n =>
        cases n with
        | zero =>
          simp only [List.getElem?_cons_succ, List.getElem?_cons_zero, Option.some.injEq,
            Event.recv.injEq] at hrecv
          subst hrecv
          rw [hc] at hcode
          cases hcode
        | succ m => simp at hrecv
    case ParameterUpdate =>
      have hlen : 2 ≤ q.payloads.length := hwf q (by simp) hc
      rcases hq : q.payloads with _ | ⟨a, _ | ⟨b, t⟩⟩
      · rw [hq] at hlen; simp at hlen
      · rw [hq] at hlen; simp at hlen
      have hp0 : q.payloads[0]? = some a := by rw [hq]; rfl
      have hp1 : q.payloads[1]? = some b := by rw [hq]; simp
      simp only [activeLoop, hc, hp0, hp1, synchronizeSent] at hrecv ⊢
      cases i with
      | zero => simp at hrecv
      | succ n =>
        cases n with
        | zero =>
          simp only [List.getElem?_cons_succ, List.getElem?_cons_zero, Option.some.injEq,
            Event.recv.injEq] at hrecv
          subst hrecv
          exact ⟨b, tr.model_parameters (tr.train s a), hp1, by simp⟩
        | succ m =>
          cases m with
          | zero =>
            simp only [List.getElem?_cons_succ, List.getElem?_cons_zero,
              Option.some.injEq] at hrecv
            cases hrecv
          | succ l =>
            simp only [List.getElem?_cons_succ] at hrecv ⊢
            exact ih _ (some b)
              (fun p hp hcp => hwf p (by simp [hp]) hcp) l hrecv

/-- C2 witness: a round receiving counter `3` replies with counter `4`. -/
theorem active_round_counter_witness :
    ∃ cnt params,
      (Package.mk MessageCode.ParameterUpdate [[1, 2], [3]]).payloads[1]? = some cnt ∧
      (activeLoop unitTrainer () none
        [⟨MessageCode.ParameterUpdate, [[1, 2], [3]]⟩]).1[1 + 1]? =
        some (Event.send ⟨MessageCode.ParameterUpdate, [params, cnt.map (· + 1)]⟩) :=
  active_round_counter unitTrainer () none
    [⟨MessageCode.ParameterUpdate, [[1, 2], [3]]⟩] (by decide) 1
    ⟨MessageCode.ParameterUpdate, [[1, 2], [3]]⟩ (by decide) (by decide)

/-! Codec lemmas. -/

/-- `True` exactly on the `error` branch (a raised Python exception). -/
def isError {ε α : Type} : Except ε α → Bool
  | .error _ => true
  | .ok _ => false

/-- C5: for `r > 1` the constructor stores `1/r`, and on `1/r` it stores
`1/r` again, so the two constructed codecs are equal as states — hence
`initialize`, `compress` and `decompress` coincide on all arguments. -/
theorem ratio_normalization (r : ℚ) (f i : Bool) (hr : 1 < r) :
    TopkCompressor.init r f i = TopkCompressor.init (1 / r) f i ∧
    (∀ ps, TopkCompressor.initialize (TopkCompressor.init r f i) ps =
      TopkCompressor.initialize (TopkCompressor.init (1 / r) f i) ps) ∧
    (∀ ps t name, ( TopkCompressor.initialize (TopkCompressor.init r f i) ps).compress t name =
      ( TopkCompressor.initialize (TopkCompressor.init (1 / r) f i) ps).compress t name) ∧
    (∀ ps payload ctx,
      ( TopkCompressor.initialize (TopkCompressor.init r f i) ps).decompress payload ctx =
      ( TopkCompressor.initialize (TopkCompressor.init (1 / r) f i) ps).decompress payload ctx) := by
  have key : TopkCompressor.init r f i = TopkCompressor.init (1 / r) f i := by
    have h1 : ¬r ≤ 1 := not_le.mpr hr
    have hpos : (0 : ℚ) < r := lt_trans one_pos hr
    have h2 : 1 / r ≤ 1 := by
      rw [div_le_one hpos]
      exact le_of_lt hr
    unfold TopkCompressor.init
    rw [if_neg h1, if_pos h2]
  exact ⟨key, fun ps => by rw [key], fun ps t name => by rw [key], fun ps payload ctx => by
    rw [key]⟩

/-- C5 witness: ratio `4.0` builds the same codec state as ratio `0.25`. -/
theorem ratio_normalization_witness :
    (1 : ℚ) < 4 ∧ TopkCompressor.init 4 false false = TopkCompressor.init 0.25 false false := by
  have h := ratio_normalization 4 false false (by norm_num)
  have h4 : (1 / 4 : ℚ) = 0.25 := by norm_num
  exact ⟨by norm_num, by rw [h.1, h4]⟩

theorem scatterAddList_length (is : List ℕ) (vs : List ℚ) (base : List ℚ) :
    (scatterAddList base is vs).length = base.length := by
  induction is generalizing vs base with
  | nil => cases vs <;> rfl
  | cons i it ih =>
    cases vs with
    | nil => rfl
    | cons v vt => rw [scatterAddList, ih, List.length_set]

theorem scatterAddList_getD (is : List ℕ) (vs : List ℚ) (base : List ℚ) (t : ℕ)
    (hlen : is.length = vs.length) (ht : t < base.length) :
    (scatterAddList base is vs).getD t 0 =
      base.getD t 0 + (((is.zip vs).filter (fun p => p.1 == t)).map Prod.snd).sum := by
  induction is generalizing vs base with
  | nil => simp [scatterAddList]
  | cons i it ih =>
    cases vs with
    | nil => simp at hlen
    | cons v vt =>
      have hlen' : it.length = vt.length := by simpa using hlen
      rw [scatterAddList, ih vt _ hlen' (by rw [List.length_set]; exact ht)]
      by_cases hit : i = t
      · subst hit
        have hset : (base.set i (base.getD i 0 + v)).getD i 0 = base.getD i 0 + v := by
          rw [List.getD_eq_getElem?_getD, List.getElem?_set]
          simp [ht]
        rw [hset]
        simp only [List.zip_cons_cons, List.filter_cons, beq_self_eq_true, if_pos]
        simp [add_assoc]
      · have hset : (base.set i (base.getD i 0 + v)).getD t 0 = base.getD t 0 := by
          rw [List.getD_eq_getElem?_getD, List.getElem?_set, if_neg hit,
            ← List.getD_eq_getElem?_getD]
        rw [hset]
        simp only [List.zip_cons_cons, List.filter_cons]
        have : ((i, v).1 == t) = false := by simpa using hit
        rw [this]
        simp

theorem filter_zip_not_mem (is : List ℕ) (vs : List ℚ) (t : ℕ) (h : t ∉ is) :
    (is.zip vs).filter (fun p => p.1 == t) = [] := by
  induction is generalizing vs with
  | nil => simp
  | cons i it ih =>
    cases vs with
    | nil => simp
    | cons v vt =>
      simp only [List.zip_cons_cons, List.filter_cons]
      have hne : ((i, v).1 == t) = false := by
        simp only [beq_eq_false_iff_ne, ne_eq]
        intro he
        exact h (he ▸ List.mem_cons_self i it)
      rw [hne]
      exact ih vt (fun hm => h (List.mem_cons_of_mem i hm))

theorem filter_zip_map_of_nodup (f : ℕ → ℚ) (is : List ℕ) (t : ℕ) (hnd : is.Nodup) :
    (((is.zip (is.map f)).filter (fun p => p.1 == t)).map Prod.snd).sum =
      if t ∈ is then f t else 0 := by
  induction is with
  | nil => simp
  | cons i it ih =>
    simp only [List.map_cons, List.zip_cons_cons, List.filter_cons]
    by_cases hit : i = t
    · subst hit
      have hni : i ∉ it := (List.nodup_cons.mp hnd).1
      simp only [beq_self_eq_true, if_pos, List.map_cons, List.sum_cons]
      rw [filter_zip_not_mem it (it.map f) i hni]
      simp
    · have hne : ((i, f i).1 == t) = false := by simpa using hit
      rw [hne]
      simp only [Bool.false_eq_true, if_false]
      rw [ih (List.nodup_cons.mp hnd).2]
      simp [List.mem_cons, hit, Ne.symm hit]

/-- C8: on a registered name with compression enabled and a structurally
valid payload, `decompress` returns a tensor of the requested shape whose
flattened entry at `t` is the sum of all values scattered at index `t`
(accumulating writes: duplicates add), and `0` wherever `t` occurs in no
index. -/
theorem decompress_scatter_semantics (c : TopkCompressor) (values : List ℚ)
    (indices : List ℕ) (name : String) (shape : List ℕ)
    (hr : c.compress_ratio < 1) (hn : (c.attributes.lookup name).isSome = true)
    (hlen : indices.length = values.length) (hidx : ∀ i ∈ indices, i < shape.prod) :
    ∃ d, c.decompress (values, indices) (name, shape) = .ok ⟨shape, d⟩ ∧
      d.length = shape.prod ∧
      (∀ t, t < shape.prod →
        d.getD t 0 = (((indices.zip values).filter (fun p => p.1 == t)).map Prod.snd).sum) ∧
      (∀ t, t < shape.prod → t ∉ indices → d.getD t 0 = 0) := by
  obtain ⟨e, he⟩ := Option.isSome_iff_exists.mp hn
  have hgetD : ∀ t, t < shape.prod →
      (scatterAddList (List.replicate shape.prod 0) indices values).getD t 0 =
        (((indices.zip values).filter (fun p => p.1 == t)).map Prod.snd).sum := by
    intro t ht
    rw [scatterAddList_getD indices values _ t hlen (by simpa using ht)]
    simp [List.getD_eq_getElem?_getD, List.getElem?_replicate, ht]
  refine ⟨scatterAddList (List.replicate shape.prod 0) indices values, ?_, ?_, hgetD, ?_⟩
  · simp only [TopkCompressor.decompress, if_pos hr, he]
    rw [if_pos ⟨hlen, hidx⟩]
  · rw [scatterAddList_length, List.length_replicate]
  · intro t ht hnot
    rw [hgetD t ht, filter_zip_not_mem indices values t hnot]
    simp

/-- A small concrete codec state used to instantiate codec theorems: as
produced by `init` with ratio `1/2` followed by registering a 2-element
parameter named `w` (whose `keep_count` is `ceil(2 * 1/2) = 1`). -/
def cW : TopkCompressor :=
  { fp16_values := false
    int32_indices := false
    compress_ratio := 1 / 2
    attributes := [("w", (2, [2], 1))] }

/-- C8 witness: scattering values `2` and `3` both at index `0` into shape
`[2]` accumulates to `5`, demonstrating add-not-overwrite. -/
theorem decompress_scatter_semantics_witness :
    ∃ d, cW.decompress ([2, 3], [0, 0]) ("w", [2]) = .ok ⟨[2], d⟩ ∧
      d.length = List.prod [2] ∧
      (∀ t, t < List.prod [2] →
        d.getD t 0 = ((([0, 0].zip [2, 3]).filter (fun p => p.1 == t)).map Prod.snd).sum) ∧
      (∀ t, t < List.prod [2] → t ∉ [0, 0] → d.getD t 0 = 0) :=
  decompress_scatter_semantics cW [2, 3] [0, 0] "w" [2]
    (by norm_num [cW]) (by decide) (by decide) (by decide)

/-- C6: `compress` and `decompress` raise exactly when compression is
disabled (`compress_ratio >= 1.0` after normalization) or the name was
never registered — under the implicit call contract that the payload is
structurally valid: the compressed tensor is at least `top_k_samples`
long, indices and values have equal length and indices lie inside the
shape. On every path, error paths included, neither method mutates the
codec state (the state-passing forms return `self` unchanged). -/
theorem compression_config_error_iff (c : TopkCompressor) (t : Tensor) (name : String)
    (values : List ℚ) (indices : List ℕ) (shape : List ℕ)
    (htk : (c.attributes.lookup name).all
      (fun e => decide (0 ≤ e.2.2) && decide (e.2.2.toNat ≤ t.data.length)) = true)
    (hlen : indices.length = values.length) (hidx : ∀ i ∈ indices, i < shape.prod) :
    ((isError (c.compress t name) = true) ↔
      (¬c.compress_ratio < 1 ∨ c.attributes.lookup name = none)) ∧
    ((isError (c.decompress (values, indices) (name, shape)) = true) ↔
      (¬c.compress_ratio < 1 ∨ c.attributes.lookup name = none)) ∧
    (c.compressS t name).1 = c ∧
    (c.decompressS (values, indices) (name, shape)).1 = c := by
  refine ⟨?_, ?_, rfl, rfl⟩
  · by_cases hr : c.compress_ratio < 1
    · cases hl : c.attributes.lookup name with
      | none =>
        simp only [TopkCompressor.compress, if_pos hr, hl]
        simp [isError]
      | some e =>
        rw [hl, Option.all_some] at htk
        have htk1 : 0 ≤ e.2.2 := of_decide_eq_true (Bool.and_elim_left htk)
        have htk2 : e.2.2.toNat ≤ t.data.length := of_decide_eq_true (Bool.and_elim_right htk)
        simp only [TopkCompressor.compress, if_pos hr, hl]
        rw [if_pos ⟨htk1, htk2⟩]
        simp [isError, hr, hl]
    · simp only [TopkCompressor.compress, if_neg hr]
      simp [isError, hr]
  · by_cases hr : c.compress_ratio < 1
    · cases hl : c.attributes.lookup name with
      | none =>
        simp only [TopkCompressor.decompress, if_pos hr, hl]
        simp [isError]
      | some e =>
        simp only [TopkCompressor.decompress, if_pos hr, hl]
        rw [if_pos ⟨hlen, hidx⟩]
        simp [isError, hr, hl]
    · simp only [TopkCompressor.decompress, if_neg hr]
      simp [isError, hr]

/-- C6 witness: on the registered name `w` with ratio `1/2`, neither call
errors and both leave the state untouched. -/
theorem compression_config_error_iff_witness :
    ((isError (cW.compress ⟨[2], [1, 2]⟩ "w") = true) ↔
      (¬cW.compress_ratio < 1 ∨ cW.attributes.lookup "w" = none)) ∧
    ((isError (cW.decompress ([5], [0]) ("w", [2])) = true) ↔
      (¬cW.compress_ratio < 1 ∨ cW.attributes.lookup "w" = none)) ∧
    (cW.compressS ⟨[2], [1, 2]⟩ "w").1 = cW ∧
    (cW.decompressS ([5], [0]) ("w", [2])).1 = cW :=
  compression_config_error_iff cW ⟨[2], [1, 2]⟩ "w" [5] [0] [2]
    (by decide) (by decide) (by decide)

theorem initialize_compress_ratio (c : TopkCompressor) (ps : List (String × Tensor)) :
    ( TopkCompressor.initialize c ps).compress_ratio = c.compress_ratio := by
  induction ps generalizing c with
  | nil => rfl
  | cons p rest ih => exact ih _

theorem initialize_attributes (c : TopkCompressor) (ps : List (String × Tensor))
    (hdisj : ∀ np ∈ ps, c.attributes.lookup np.1 = none)
    (hnd : (ps.map Prod.fst).Nodup) :
    ( TopkCompressor.initialize c ps).attributes =
      c.attributes ++ ps.map (fun np =>
        (np.1, np.2.numel, np.2.shape, ⌈(np.2.numel : ℚ) * c.compress_ratio⌉)) := by
  induction ps generalizing c with
  | nil => simp [ TopkCompressor.initialize]
  | cons p rest ih =>
    have hd : c.attributes.lookup p.1 = none := hdisj p (by simp)
    have hnd' : p.1 ∉ rest.map Prod.fst ∧ (rest.map Prod.fst).Nodup := by
      rw [List.map_cons, List.nodup_cons] at hnd
      exact hnd
    have hnotin : p.1 ∉ rest.map Prod.fst := hnd'.1
    have hstep : TopkCompressor.initialize c (p :: rest) =
        TopkCompressor.initialize
          { c with attributes := c.attributes ++
              [(p.1, (p.2.numel, p.2.shape, ⌈(p.2.numel : ℚ) * c.compress_ratio⌉))] } rest := by
      simp only [ TopkCompressor.initialize, List.foldl_cons]
      congr 1
      simp [dictInsert, hd]
    rw [hstep]
    have hdisj' : ∀ np ∈ rest,
        ({ c with attributes := c.attributes ++
            [(p.1, (p.2.numel, p.2.shape,
              ⌈(p.2.numel : ℚ) * c.compress_ratio⌉))] } : TopkCompressor).attributes.lookup
          np.1 = none := by
      intro np hnp
      have h1 : c.attributes.lookup np.1 = none := hdisj np (List.mem_cons_of_mem p hnp)
      have h2 : np.1 ≠ p.1 := by
        intro he
        exact hnotin (he ▸ List.mem_map_of_mem Prod.fst hnp)
      have hbe : (np.1 == p.1) = false := beq_eq_false_iff_ne.mpr h2
      rw [List.lookup_append, h1]
      simp [List.lookup_cons, hbe]
    rw [ih _ hdisj' hnd'.2]
    simp [List.append_assoc]

/-- C7: `initialize` on a freshly constructed codec records exactly one
context entry per passed parameter, in order, each holding the parameter's
element count, shape and `keep_count = ceil(element_count * ratio)`; and
(for a positive constructor ratio and non-empty parameters, the domain the
spec's invariant presumes) every entry satisfies
`0 < keep_count <= element_count`. -/
theorem initialize_context_invariant (r : ℚ) (f i : Bool) (params : List (String × Tensor))
    (hr : 0 < r) (hnd : (params.map Prod.fst).Nodup)
    (hne : ∀ p ∈ params, 0 < p.2.numel) :
    ( TopkCompressor.initialize (TopkCompressor.init r f i) params).attributes =
      params.map (fun np => (np.1, np.2.numel, np.2.shape,
        ⌈(np.2.numel : ℚ) * (TopkCompressor.init r f i).compress_ratio⌉)) ∧
    ∀ e ∈ ( TopkCompressor.initialize (TopkCompressor.init r f i) params).attributes,
      0 < e.2.2.2 ∧ e.2.2.2 ≤ (e.2.1 : ℤ) := by
  have hρ0 : 0 < (TopkCompressor.init r f i).compress_ratio := by
    simp only [TopkCompressor.init]
    split
    · exact hr
    · exact one_div_pos.mpr hr
  have hρ1 : (TopkCompressor.init r f i).compress_ratio ≤ 1 := by
    simp only [TopkCompressor.init]
    split
    case isTrue h => exact h
    case isFalse h => exact (div_le_one hr).mpr (le_of_lt (not_le.mp h))
  have hattr := initialize_attributes (TopkCompressor.init r f i) params
    (fun np _ => by simp [TopkCompressor.init]) hnd
  rw [show (TopkCompressor.init r f i).attributes = [] from rfl, List.nil_append] at hattr
  refine ⟨hattr, ?_⟩
  intro e he
  rw [hattr] at he
  obtain ⟨np, hnp, rfl⟩ := List.mem_map.mp he
  constructor
  · exact Int.ceil_pos.mpr (mul_pos (by exact_mod_cast hne np hnp) hρ0)
  · refine Int.ceil_le.mpr ?_
    push_cast
    exact mul_le_of_le_one_right (le_of_lt (by exact_mod_cast hne np hnp)) hρ1

/-- C7 witness: registering two parameters under ratio `1/2` yields one
entry each with `keep_count` equal to `ceil(numel/2)`, inside the
invariant bounds. -/
theorem initialize_context_invariant_witness :
    ( TopkCompressor.initialize (TopkCompressor.init (1 / 2) false false)
        [("w", ⟨[2], [1, 2]⟩), ("b", ⟨[3], [1, 2, 3]⟩)]).attributes =
      ([("w", ⟨[2], [1, 2]⟩), ("b", ⟨[3], [1, 2, 3]⟩)] : List (String × Tensor)).map
        (fun np => (np.1, np.2.numel, np.2.shape,
          ⌈(np.2.numel : ℚ) * (TopkCompressor.init (1 / 2) false false).compress_ratio⌉)) ∧
    ∀ e ∈ ( TopkCompressor.initialize (TopkCompressor.init (1 / 2) false false)
        [("w", ⟨[2], [1, 2]⟩), ("b", ⟨[3], [1, 2, 3]⟩)]).attributes,
      0 < e.2.2.2 ∧ e.2.2.2 ≤ (e.2.1 : ℤ) :=
  initialize_context_invariant (1 / 2) false false
    [("w", ⟨[2], [1, 2]⟩), ("b", ⟨[3], [1, 2, 3]⟩)]
    (by norm_num) (by decide) (by decide)

/-! Top-k selection lemmas. -/

theorem sortIdx_perm (xs : List ℚ) : (sortIdx xs).Perm (List.range xs.length) :=
  List.perm_insertionSort _ _

theorem sortIdx_length (xs : List ℚ) : (sortIdx xs).length = xs.length := by
  rw [(sortIdx_perm xs).length_eq, List.length_range]

theorem sortIdx_nodup (xs : List ℚ) : (sortIdx xs).Nodup :=
  (sortIdx_perm xs).nodup_iff.mpr (List.nodup_range _)

theorem mem_sortIdx (xs : List ℚ) (j : ℕ) : j ∈ sortIdx xs ↔ j < xs.length := by
  rw [(sortIdx_perm xs).mem_iff, List.mem_range]

theorem sortIdx_sorted (xs : List ℚ) :
    List.Pairwise (fun a b => |xs.getD b 0| ≤ |xs.getD a 0|) (sortIdx xs) := by
  haveI h1 : IsTotal ℕ (fun a b => |xs.getD b 0| ≤ |xs.getD a 0|) :=
    ⟨fun a b => le_total _ _⟩
  haveI h2 : IsTrans ℕ (fun a b => |xs.getD b 0| ≤ |xs.getD a 0|) :=
    ⟨fun _ _ _ hab hbc => le_trans hbc hab⟩
  exact List.sorted_insertionSort _ _

theorem topkIndices_nodup (xs : List ℚ) (k : ℕ) : (topkIndices xs k).Nodup :=
  List.Nodup.sublist (List.take_sublist _ _) (sortIdx_nodup xs)

theorem topkIndices_length (xs : List ℚ) (k : ℕ) (hk : k ≤ xs.length) :
    (topkIndices xs k).length = k := by
  rw [topkIndices, List.length_take, sortIdx_length]
  exact min_eq_left hk

theorem mem_topkIndices_lt (xs : List ℚ) (k : ℕ) : ∀ j ∈ topkIndices xs k, j < xs.length :=
  fun j hj => (mem_sortIdx xs j).mp (List.take_subset k _ hj)

theorem topkIndices_largest (xs : List ℚ) (k : ℕ) :
    ∀ p ∈ topkIndices xs k, ∀ q, q < xs.length → q ∉ topkIndices xs k →
      |xs.getD q 0| ≤ |xs.getD p 0| := by
  intro p hp q hq hqn
  have hsort := sortIdx_sorted xs
  rw [← List.take_append_drop k (sortIdx xs), List.pairwise_append] at hsort
  have hqmem : q ∈ (sortIdx xs).drop k := by
    have hfull : q ∈ sortIdx xs := (mem_sortIdx xs q).mpr hq
    rw [← List.take_append_drop k (sortIdx xs), List.mem_append] at hfull
    rcases hfull with h | h
    · exact absurd h hqn
    · exact h
  exact hsort.2.2 p hp q hqmem

/-- C1 (amended: the ratio ranges over the open interval `(0,1)` rather
than the claimed `(0,1]`, because at `r = 1` `compress` raises — see the
counterexample theorem): after registering `A`'s name, decompressing the
compression of `A` yields a tensor that agrees with `A` exactly on a set
of `ceil(n*r)` largest-magnitude positions and is exactly `0` at every
other position. -/
theorem topk_roundtrip (r : ℚ) (f i : Bool) (name : String) (A : Tensor)
    (hr0 : 0 < r) (hr1 : r < 1) (hwf : A.data.length = A.numel) :
    ∃ vals idx A',
      ( TopkCompressor.initialize (TopkCompressor.init r f i) [(name, A)]).compress A name =
        .ok ((vals, idx), (name, A.shape)) ∧
      ( TopkCompressor.initialize (TopkCompressor.init r f i) [(name, A)]).decompress
        (vals, idx) (name, A.shape) = .ok A' ∧
      A'.shape = A.shape ∧ A'.data.length = A.numel ∧
      idx.Nodup ∧ idx.length = (⌈(A.numel : ℚ) * r⌉).toNat ∧
      (∀ j ∈ idx, j < A.numel) ∧
      (∀ p ∈ idx, ∀ q, q < A.numel → q ∉ idx → |A.data.getD q 0| ≤ |A.data.getD p 0|) ∧
      (∀ p ∈ idx, A'.data.getD p 0 = A.data.getD p 0) ∧
      (∀ q, q < A.numel → q ∉ idx → A'.data.getD q 0 = 0) := by
  have hr1' : r ≤ 1 := le_of_lt hr1
  set c := TopkCompressor.initialize (TopkCompressor.init r f i) [(name, A)] with hc
  have hrat : c.compress_ratio = r := by
    rw [hc, initialize_compress_ratio]
    simp [TopkCompressor.init, hr1']
  have hlt : c.compress_ratio < 1 := by rw [hrat]; exact hr1
  set k : ℤ := ⌈(A.numel : ℚ) * r⌉ with hk
  have hattr : c.attributes = [(name, (A.numel, A.shape, k))] := by
    rw [hc]
    have := initialize_attributes (TopkCompressor.init r f i) [(name, A)]
      (fun np _ => by simp [TopkCompressor.init]) (by simp)
    rw [show (TopkCompressor.init r f i).attributes = [] from rfl, List.nil_append] at this
    rw [this]
    have hρ : (TopkCompressor.init r f i).compress_ratio = r := by
      simp [TopkCompressor.init, hr1']
    simp [hρ, hk]
  have hlook : c.attributes.lookup name = some (A.numel, A.shape, k) := by
    rw [hattr]
    simp [List.lookup_cons]
  have hk0 : 0 ≤ k := Int.ceil_nonneg (mul_nonneg (Nat.cast_nonneg _) (le_of_lt hr0))
  have hkn : k ≤ (A.numel : ℤ) := by
    rw [hk]
    refine Int.ceil_le.mpr ?_
    push_cast
    exact mul_le_of_le_one_right (Nat.cast_nonneg _) hr1'
  have hkt : k.toNat ≤ A.data.length := by
    rw [hwf]
    exact Int.toNat_le.mpr hkn
  set idx := topkIndices A.data k.toNat with hidxdef
  set vals := idx.map (fun j => A.data.getD j 0) with hvals
  have hcomp : c.compress A name = .ok ((vals, idx), (name, A.shape)) := by
    rw [TopkCompressor.compress, if_pos hlt, hlook]
    dsimp only
    rw [if_pos ⟨hk0, hkt⟩]
  have hlenvi : idx.length = vals.length := by rw [hvals, List.length_map]
  have hidxlt : ∀ j ∈ idx, j < A.shape.prod := by
    intro j hj
    have := mem_topkIndices_lt A.data k.toNat j hj
    rw [hwf] at this
    exact this
  set d := scatterAddList (List.replicate A.shape.prod 0) idx vals with hd
  have hdecomp : c.decompress (vals, idx) (name, A.shape) = .ok ⟨A.shape, d⟩ := by
    rw [TopkCompressor.decompress, if_pos hlt]
    dsimp only
    rw [hlook]
    dsimp only
    rw [if_pos ⟨hlenvi, hidxlt⟩]
  have hnodup : idx.Nodup := topkIndices_nodup A.data k.toNat
  have hdlen : d.length = A.numel := by
    rw [hd, scatterAddList_length, List.length_replicate]
    rfl
  have hdget : ∀ t, t < A.numel → d.getD t 0 = if t ∈ idx then A.data.getD t 0 else 0 := by
    intro t ht
    have htb : t < (List.replicate A.shape.prod (0 : ℚ)).length := by
      rw [List.length_replicate]
      exact ht
    rw [hd, scatterAddList_getD idx vals _ t hlenvi htb, hvals,
      filter_zip_map_of_nodup (fun j => A.data.getD j 0) idx t hnodup]
    have hrep : (List.replicate A.shape.prod (0 : ℚ)).getD t 0 = 0 := by
      rw [List.getD_eq_getElem?_getD, List.getElem?_replicate]
      split <;> rfl
    rw [hrep, zero_add]
  refine ⟨vals, idx, ⟨A.shape, d⟩, hcomp, hdecomp, rfl, hdlen, hnodup, ?_, ?_, ?_, ?_, ?_⟩
  · exact topkIndices_length A.data k.toNat hkt
  · intro j hj
    have := mem_topkIndices_lt A.data k.toNat j hj
    rw [hwf] at this
    exact this
  · intro p hp q hq hqn
    exact topkIndices_largest A.data k.toNat p hp q (by rw [hwf]; exact hq) hqn
  · intro p hp
    rw [hdget p (by
      have := mem_topkIndices_lt A.data k.toNat p hp
      rw [hwf] at this
      exact this)]
    rw [if_pos hp]
  · intro q hq hqn
    rw [hdget q hq, if_neg hqn]

/-- C1 counterexample: the claim admits `r = 1` ("ratio in (0,1]"), but at
`r = 1` — after `initialize` has registered the array's name — `compress`
raises `ValueError` (the guard requires `compress_ratio < 1.0` strictly),
so no round trip exists there. -/
theorem topk_roundtrip_ratio_one_counterexample :
    ( TopkCompressor.initialize (TopkCompressor.init 1 false false)
      [("w", ⟨[1], [5]⟩)]).compress ⟨[1], [5]⟩ "w" = .error "invalid value" := by
  rfl

/-- C1 witness: the round trip at ratio `1/2` on the 3-element array
`[1, -5, 2]` (so `ceil(3/2) = 2` kept positions). -/
theorem topk_roundtrip_witness :
    ∃ vals idx A',
      ( TopkCompressor.initialize (TopkCompressor.init (1 / 2) false false)
        [("w", ⟨[3], [1, -5, 2]⟩)]).compress ⟨[3], [1, -5, 2]⟩ "w" =
        .ok ((vals, idx), ("w", Tensor.shape ⟨[3], [1, -5, 2]⟩)) ∧
      ( TopkCompressor.initialize (TopkCompressor.init (1 / 2) false false)
        [("w", ⟨[3], [1, -5, 2]⟩)]).decompress
        (vals, idx) ("w", Tensor.shape ⟨[3], [1, -5, 2]⟩) = .ok A' ∧
      A'.shape = Tensor.shape ⟨[3], [1, -5, 2]⟩ ∧
      A'.data.length = Tensor.numel ⟨[3], [1, -5, 2]⟩ ∧
      idx.Nodup ∧
      idx.length = (⌈(Tensor.numel ⟨[3], [1, -5, 2]⟩ : ℚ) * (1 / 2)⌉).toNat ∧
      (∀ j ∈ idx, j < Tensor.numel ⟨[3], [1, -5, 2]⟩) ∧
      (∀ p ∈ idx, ∀ q, q < Tensor.numel ⟨[3], [1, -5, 2]⟩ → q ∉ idx →
        |(Tensor.data ⟨[3], [1, -5, 2]⟩).getD q 0| ≤
          |(Tensor.data ⟨[3], [1, -5, 2]⟩).getD p 0|) ∧
      (∀ p ∈ idx, A'.data.getD p 0 = (Tensor.data ⟨[3], [1, -5, 2]⟩).getD p 0) ∧
      (∀ q, q < Tensor.numel ⟨[3], [1, -5, 2]⟩ → q ∉ idx → A'.data.getD q 0 = 0) :=
  topk_roundtrip (1 / 2) false false "w" ⟨[3], [1, -5, 2]⟩
    (by norm_num) (by norm_num) (by decide)

end FedLab
